import Mathlib

/-!
Verification of the qubes-appmenus synchronization engine
(`qubesappmenus/__init__.py`), shallowly embedded in Lean 4.

Text is modelled as `List Char` (Python `str` char-wise); file systems as
association lists from names to contents; external subprocess invocations
(the xdg menu registrar, the icon tinter) are recorded as data in the
result of each operation rather than executed.
-/

namespace Qubesappmenus

/-- Character-level text, the model of a Python `str`. -/
abbrev Text := List Char

/-- Coerce a Lean string literal to its character list. -/
def txt (s : String) : Text := s.data

/-- ASCII whitespace as recognized by Python's `str.strip` family
(space, tab, newline, carriage return, vertical tab, form feed). -/
def pySpace (c : Char) : Bool :=
  c = ' ' || c = '\t' || c = '\n' || c = '\x0d' || c = '\x0b' || c = '\x0c'

/-- Python `str.lstrip()` (ASCII whitespace). -/
def lstrip (t : Text) : Text := t.dropWhile pySpace

/-- Python `str.rstrip()` (ASCII whitespace). -/
def rstrip (t : Text) : Text := (t.reverse.dropWhile pySpace).reverse

/-- Python `str.strip()` (ASCII whitespace). -/
def strip (t : Text) : Text := rstrip (lstrip t)

/-- Helper for `splitOnChar`: returns the first segment and the remaining
segments after each separator occurrence, exactly like Python
`str.split(sep)` (empty segments kept). -/
def splitOnCharAux (sep : Char) : Text → Text × List Text
  | [] => ([], [])
  | c :: rest =>
    let r := splitOnCharAux sep rest
    if c = sep then ([], r.1 :: r.2) else (c :: r.1, r.2)

/-- Python `str.split(sep)` for a single-character separator: empty
segments are kept, and splitting the empty string yields `[""]`. -/
def splitOnChar (sep : Char) (t : Text) : List Text :=
  let r := splitOnCharAux sep t
  r.1 :: r.2

/-- Split on any character satisfying `p`, keeping empty segments
(the "split on whitespace" reading of the specification, with a
separator class instead of one character). -/
def splitOnPredAux (p : Char → Bool) : Text → Text × List Text
  | [] => ([], [])
  | c :: rest =>
    let r := splitOnPredAux p rest
    if p c then ([], r.1 :: r.2) else (c :: r.1, r.2)

/-- Split on any character satisfying `p` (empty segments kept). -/
def splitOnPred (p : Char → Bool) (t : Text) : List Text :=
  let r := splitOnPredAux p t
  r.1 :: r.2

/-- Fueled core of `replaceAll`; fuel bounds the length of the text still
to be scanned, so the recursion is structural. -/
def replaceAllFuel (pat rep : Text) : Nat → Text → Text
  | 0, l => l
  | Nat.succ n, l =>
    match l with
    | [] => []
    | c :: rest =>
      if pat ≠ [] && pat.isPrefixOf l then
        rep ++ replaceAllFuel pat rep n (l.drop pat.length)
      else
        c :: replaceAllFuel pat rep n rest

/-- Python `str.replace(pat, rep)` for a non-empty pattern: replaces
every non-overlapping occurrence left to right. -/
def replaceAll (t pat rep : Text) : Text := replaceAllFuel pat rep t.length t

/-- Python `pat in t` substring containment. -/
def containsPat (t pat : Text) : Bool :=
  pat.isPrefixOf t ||
    match t with
    | [] => false
    | _ :: rest => containsPat rest pat

/-- `String.startswith` on Lean strings, via character lists. -/
def startswith (s pre : String) : Bool := pre.data.isPrefixOf s.data

/-- `String.endswith` on Lean strings, via character lists. -/
def endswith (s suf : String) : Bool := suf.data.isSuffixOf s.data

/-! ### Rendering (`Appmenus.write_desktop_file`, lines 136-171) -/

/-- Pattern `'\nExec='`. -/
def nlExecPat : Text := txt "\nExec="

/-- Pattern `'\nX-Qubes-NonDispvmExec='`. -/
def nlNonDispPat : Text := txt "\nX-Qubes-NonDispvmExec="

/-- Pattern `'\nX-Qubes-DispvmExec='`. -/
def nlDispPat : Text := txt "\nX-Qubes-DispvmExec="

/-- The disposable-mode command-field renaming of `write_desktop_file`:
`source.replace('\nExec=', '\nX-Qubes-NonDispvmExec=')
       .replace('\nX-Qubes-DispvmExec=', '\nExec=')`. -/
def dispvmTransform (source : Text) : Text :=
  replaceAll (replaceAll source nlExecPat nlNonDispPat) nlDispPat nlExecPat

/-- The placeholder substitution of `write_desktop_file`:
`source.replace("%VMNAME%", vm.name).replace("%VMDIR%", vmdir)
       .replace("%XDGICON%", icon)`. -/
def substAll (source vmname vmdir icon : Text) : Text :=
  replaceAll
    (replaceAll (replaceAll source (txt "%VMNAME%") vmname) (txt "%VMDIR%") vmdir)
    (txt "%XDGICON%") icon

/-- Pure rendering core of `Appmenus.write_desktop_file`: the text that
would be written to the destination, or `.error ()` standing for
`DispvmNotSupportedError` (raised when, in disposable mode, the source
has no `'\nX-Qubes-DispvmExec='` but has `'\nExec='`). -/
def renderDesktop (source vmname vmdir icon : Text) (dispvm : Bool) :
    Except Unit Text :=
  if dispvm then
    if !(containsPat source nlDispPat) && containsPat source nlExecPat then
      .error ()
    else
      .ok (substAll (dispvmTransform source) vmname vmdir icon)
  else
    .ok (substAll source vmname vmdir icon)

/-! ### File-system model

The VM's `apps` directory is an association list from file basenames to
contents; insertion order stands for directory-listing order. -/

/-- Contents of one directory: file basename to file content. -/
abbrev Fs := List (String × Text)

/-- Look a file up by name (`os.path.exists` + `open(...).read()`). -/
def Fs.find : Fs → String → Option Text
  | [], _ => none
  | (m, c) :: rest, n => if m = n then some c else Fs.find rest n

/-- Write a file: overwrite in place if present, else create. -/
def Fs.write : Fs → String → Text → Fs
  | [], n, c => [(n, c)]
  | (m, c0) :: rest, n, c =>
    if m = n then (m, c) :: rest else (m, c0) :: Fs.write rest n c

/-- Delete a file (`os.unlink`; deleting an absent file is a no-op here,
matching the `contextlib.suppress(FileNotFoundError)` call sites). -/
def Fs.erase (fs : Fs) (n : String) : Fs := fs.filter (fun p => p.1 ≠ n)

/-- `os.listdir`. -/
def Fs.names (fs : Fs) : List String := fs.map Prod.fst

/-- State effect of `write_desktop_file` once the rendered text `data` is
known: if the destination already holds exactly `data`, return `False`
and leave the file system untouched; otherwise write and return `True`. -/
def writeDesktopFile (fs : Fs) (n : String) (data : Text) : Bool × Fs :=
  match Fs.find fs n with
  | some cur => if cur = data then (false, fs) else (true, Fs.write fs n data)
  | none => (true, Fs.write fs n data)

/-! ### Desktop file naming -/

/-- `Appmenus.qubes_vm_desktop`. -/
def qubes_vm_desktop : String := "org.qubes-os.vm"

/-- `Appmenus.qubes_dispvm_desktop`. -/
def qubes_dispvm_desktop : String := "org.qubes-os.dispvm"

/-- `Appmenus.qubes_vm_desktop_settings`. -/
def qubes_vm_desktop_settings : String := "org.qubes-os.qubes-vm-settings"

/-- `Appmenus.desktop_name`: the mode's namespace, the VM name and
the appmenu basename joined with dots. -/
def desktop_name (vmname base : String) (dispvm : Bool) : String :=
  (if dispvm then qubes_dispvm_desktop else qubes_vm_desktop) ++ "." ++
    vmname ++ "." ++ base

/-- `Appmenus.settings_name`. -/
def settings_name (vmname : String) : String :=
  qubes_vm_desktop_settings ++ "." ++ vmname ++ ".desktop"

/-- Basename of `Appmenus._directory_path`. -/
def directory_file_name (vmname : String) (dispvm : Bool) : String :=
  if dispvm then "qubes-dispvm-directory-" ++ vmname ++ ".directory"
  else "qubes-vm-directory-" ++ vmname ++ ".directory"

/-- `Appmenus._is_old_path`. -/
def is_old_path (n : String) : Bool :=
  !(startswith n "org.qubes-os." || startswith n "qubes-vm-directory-")

/-! ### Whitelist resolution -/

/-- `Appmenus.get_whitelist` (lines 651-671): the entries the generator
yields, given the `menu-items` feature value (if the key is present) and
the lines of the legacy whitelist file (if it exists). The feature value
is split on the single space character; every entry is stripped and
blank entries are skipped. -/
def get_whitelist (menuItems : Option Text)
    (wfileLines : Option (List Text)) : List Text :=
  match menuItems with
  | some v => ((splitOnChar ' ' v).map strip).filter (fun e => e ≠ [])
  | none =>
    match wfileLines with
    | some lines => (lines.map strip).filter (fun l => l ≠ [])
    | none => []

/-- Whitelist resolution inside `_appmenus_create_onedir` (lines
351-357): the feature value split on the single space character, else
the right-stripped lines of the legacy file, else `none` (no
filtering). -/
def effective_whitelist (menuItems : Option Text)
    (wfileLines : Option (List Text)) : Option (List Text) :=
  match menuItems with
  | some v => some (splitOnChar ' ' v)
  | none =>
    match wfileLines with
    | some lines => some (lines.map rstrip)
    | none => none

/-- Application of the effective whitelist to the available descriptor
list by basename membership (lines 353 and 357); `none` exposes
everything. -/
def filterMenus (menus : List (String × Text)) (wl : Option (List Text)) :
    List (String × Text) :=
  match wl with
  | none => menus
  | some l => menus.filter (fun p => l.contains p.1.data)

/-- The whitelist resolution in the words of the specification (for
comparison with `effective_whitelist`): feature value split on
whitespace with blank entries dropped; else the legacy file's non-blank
fully-trimmed lines; else `none`. -/
def claim_whitelist (menuItems : Option Text)
    (wfileLines : Option (List Text)) : Option (List Text) :=
  match menuItems with
  | some v => some ((splitOnPred pySpace v).filter (fun e => e ≠ []))
  | none =>
    match wfileLines with
    | some lines => some ((lines.map strip).filter (fun l => l ≠ []))
    | none => none

/-! ### Template chain resolution (`templates_dirs`,
`get_available_filenames`) -/

/-- A VM as `templates_dirs` sees it: a name plus, for `derived`, the
`template` attribute (absent on `base`). -/
inductive VMT : Type
  | base (name : String)
  | derived (name : String) (template : VMT)
deriving DecidableEq

/-- `vm.name`. -/
def VMT.name : VMT → String
  | .base n => n
  | .derived n _ => n

/-- `os.path.flatten(basedir, vm.name, AppmenusSubdirs.templates_subdir)`. -/
def tplDir (basedir name : String) : String :=
  basedir ++ "/" ++ name ++ "/" ++ "apps.templates"

/-- The chain walk of `templates_dirs` when called with `template=None`
(every recursive call in the source passes `template=None`). -/
def templates_dirs_chain (basedir : String) : VMT → List String
  | .base n => [tplDir basedir n]
  | .derived n t => tplDir basedir n :: templates_dirs_chain basedir t

/-- `Appmenus.templates_dirs(vm, template)` (lines 74-88): own directory
first, then the chain of the override template if given, else of the
VM's own template if it has one. -/
def templates_dirs (basedir : String) (vm : VMT) (template : Option VMT) :
    List String :=
  match template with
  | some t => tplDir basedir vm.name :: templates_dirs_chain basedir t
  | none => templates_dirs_chain basedir vm

/-- The world of template directories: a directory path maps to its
listing, or to `none` when the path is not a directory. -/
abbrev DirWorld := String → Option (List String)

/-- Inner loop of `get_available_filenames` over one directory listing:
yields `(dir, filename)` for each filename not in `listed` yet, and
returns the grown `listed` set. -/
def scanDir (d : String) : List String → List String →
    List (String × String) × List String
  | [], listed => ([], listed)
  | f :: rest, listed =>
    if listed.contains f then scanDir d rest listed
    else
      let r := scanDir d rest (f :: listed)
      ((d, f) :: r.1, r.2)

/-- `Appmenus.get_available_filenames` (lines 173-186): iterate resolved
directories nearest-first, skip paths that are not directories, yield
each filename at most once, from the nearest directory containing it.
Entries are `(directory, filename)` pairs standing for the joined
path. -/
def get_available_filenames (world : DirWorld) :
    List String → List String → List (String × String)
  | [], _ => []
  | d :: rest, listed =>
    match world d with
    | none => get_available_filenames world rest listed
    | some files =>
      let r := scanDir d files listed
      r.1 ++ get_available_filenames world rest r.2

/-- First directory among `dirs` that is a directory and lists `f`
(the specification's "nearest directory's copy wins"). -/
def firstDirWith (world : DirWorld) (f : String) : List String → Option String
  | [] => none
  | d :: rest =>
    match world d with
    | none => firstDirWith world f rest
    | some files =>
      if files.contains f then some d else firstDirWith world f rest

/-! ### The launcher synchronization pass
(`_appmenus_create_onedir`, `_do_remove_appmenus`, `appmenus_create`) -/

/-- Exit statuses of the external menu-registrar invocations: `true`
means the subprocess exits non-zero (`CalledProcessError`). -/
structure ExitOracle where
  uninstallFails : List String → Bool
  installFails : Bool

/-- Inputs of one synchronization run that the source reads from the VM
object, the feature store, the package resources and the template-chain
resolution. -/
structure VMEnv where
  basedir : Text
  name : String
  /-- `vm.icon` -/
  icon : Text
  /-- `vm.label.name` -/
  labelName : Text
  /-- content of the class-appropriate `*.directory.template` resource -/
  dirTemplateNormal : Text
  /-- content of the `qubes-dispvm.directory.template` resource -/
  dirTemplateDispvm : Text
  /-- content of the `qubes-vm-settings.desktop.template` resource -/
  settingsTemplate : Text
  /-- `vm.features['menu-items']` when the key is present -/
  menuItemsFeature : Option Text
  /-- lines of `whitelisted-appmenus.list` when the file exists -/
  whitelistFileLines : Option (List Text)
  /-- resolved available descriptors: basename to content -/
  avail : List (String × Text)
  /-- truthiness of `vm.features.get('internal', False)` -/
  internalFeature : Bool
  /-- `vm.klass == 'DispVM' and vm.auto_cleanup` -/
  dispvmAutoCleanup : Bool
  /-- `vm.template_for_dispvms and vm.features.get('appmenus-dispvm', False)` -/
  dispvmFeature : Bool

/-- `os.path.flatten(basedir, vm.name)`, the `%VMDIR%` substitution value. -/
def VMEnv.vmdir (env : VMEnv) : Text := env.basedir ++ txt "/" ++ env.name.data

/-- Icon name handed to the renderer: `'dispvm-' + vm.label.name` in
disposable mode, else `vm.icon`. -/
def VMEnv.renderIcon (env : VMEnv) (dispvm : Bool) : Text :=
  if dispvm then txt "dispvm-" ++ env.labelName else env.icon

/-- Result of one `_appmenus_create_onedir` run: the final `apps`
directory contents, the intermediate lists the decision logic uses, and
the recorded external invocations. -/
structure PassResult where
  fs : Fs
  dirChanged : Bool
  changed : List String
  target : List String
  stale : List String
  uninstallCalls : List (List String)
  installCall : Option (List String)
  warnings : List String
deriving DecidableEq, Repr

/-- The per-descriptor loop (lines 359-370): render each whitelisted
descriptor; collect the names whose content changed; on
`DispvmNotSupportedError` delete any previously rendered file for it
(tolerating absence) and continue with the rest. -/
def processMenus (vmname : String) (vmdir icon : Text) (dispvm : Bool) :
    List (String × Text) → Fs → Fs × List String
  | [], fs => (fs, [])
  | (base, content) :: rest, fs =>
    let fname := desktop_name vmname base dispvm
    match renderDesktop content vmname.data vmdir icon dispvm with
    | .ok data =>
      let w := writeDesktopFile fs fname data
      let r := processMenus vmname vmdir icon dispvm rest w.2
      (r.1, (if w.1 then [fname] else []) ++ r.2)
    | .error _ => processMenus vmname vmdir icon dispvm rest (Fs.erase fs fname)

/-- `_sort_entries` (lines 259-260): Python `sorted` with key
`not x.endswith('.directory')`, i.e. the stable sort that places
`.directory` entries first and keeps relative order otherwise. -/
def sort_entries (l : List String) : List String :=
  l.filter (fun x => endswith x ".directory") ++
    l.filter (fun x => !endswith x ".directory")

/-- The batches `_do_remove_appmenus` (lines 246-284) passes to
`xdg-desktop-menu uninstall` (with `LC_COLLATE=C` in the environment):
the old-naming-scheme subset first, then the current-scheme subset, each
sorted by `sort_entries`, empty batches skipped. -/
def do_remove_batches (toRemove : List String) : List (List String) :=
  let old := sort_entries (toRemove.filter (fun x => is_old_path x))
  let nw := sort_entries (toRemove.filter (fun x => !is_old_path x))
  (if old.isEmpty then [] else [old]) ++ (if nw.isEmpty then [] else [nw])

/-- The install decision (lines 419-446): skip unless something changed
or `force`; on `force`, or when only the directory entry changed,
re-register the full target set (if non-empty); otherwise register
exactly the changed launchers. The directory file always heads the
argument list. -/
def installDecision (force dirChanged : Bool) (changed target : List String)
    (dirName : String) : Option (List String) :=
  if dirChanged || !changed.isEmpty || force then
    if (dirChanged && changed.isEmpty) || force then
      if target.isEmpty then none else some (dirName :: target)
    else if !changed.isEmpty then some (dirName :: changed) else none
  else none

/-- Steps 2-5 of `_appmenus_create_onedir`: write the directory-entry
file (its rendered content `dirData` given), run the per-descriptor
loop, and in normal mode also the settings launcher. Returns
`(fs3, dirChanged, changed, target)`. -/
def passWrites (env : VMEnv) (dispvm : Bool) (dirData : Text) (fs0 : Fs) :
    Fs × Bool × List String × List String :=
  let dirName := directory_file_name env.name dispvm
  let w := writeDesktopFile fs0 dirName dirData
  let menus := filterMenus env.avail
    (effective_whitelist env.menuItemsFeature env.whitelistFileLines)
  let pm := processMenus env.name env.vmdir (env.renderIcon dispvm) dispvm
    menus w.2
  let target0 := menus.map (fun p => desktop_name env.name p.1 dispvm)
  if dispvm then (pm.1, w.1, pm.2, target0)
  else
    let sname := settings_name env.name
    let sdata := substAll env.settingsTemplate env.name.data env.vmdir env.icon
    let sw := writeDesktopFile pm.1 sname sdata
    (sw.2, w.1, pm.2 ++ (if sw.1 then [sname] else []), target0 ++ [sname])

/-- Step 6 of the pass: the stale set — installed files minus the
directory-entry file minus the target set, with the companion pass's
prefix families carved out (`keep_dispvm` protects disposable-mode
names during the normal pass; the disposable pass protects normal-mode
names). -/
def passStale (env : VMEnv) (dispvm keep_dispvm : Bool) (fs3 : Fs)
    (target : List String) : List String :=
  let dirName := directory_file_name env.name dispvm
  let installed := (Fs.names fs3).erase dirName
  let stale0 := installed.filter (fun x => !target.contains x)
  if keep_dispvm then
    stale0.filter (fun x =>
      !startswith x qubes_dispvm_desktop &&
        !startswith x "qubes-dispvm-directory-")
  else if dispvm then
    stale0.filter (fun x =>
      !startswith x qubes_vm_desktop && !startswith x "qubes-vm-directory-")
  else stale0

/-- `_appmenus_create_onedir` (lines 319-446) after the directory-entry
template has rendered successfully to `dirData`: the writes, the stale
computation, the uninstall batches, the on-disk deletions and the
install decision, with subprocess failures recorded as warnings. -/
def passCore (env : VMEnv) (oracle : ExitOracle)
    (force dispvm keep_dispvm : Bool) (dirData : Text) (fs0 : Fs) :
    PassResult :=
  let dirName := directory_file_name env.name dispvm
  let ws := passWrites env dispvm dirData fs0
  let stale := passStale env dispvm keep_dispvm ws.1 ws.2.2.2
  let batches := do_remove_batches stale
  let warns1 := (batches.filter oracle.uninstallFails).map
    (fun _ => "Problem removing appmenus")
  let fs4 := stale.foldl Fs.erase ws.1
  let installCall := installDecision force ws.2.1 ws.2.2.1 ws.2.2.2 dirName
  let warns2 :=
    match installCall with
    | some _ => if oracle.installFails then ["Problem creating appmenus"] else []
    | none => []
  ⟨fs4, ws.2.1, ws.2.2.1, ws.2.2.2, stale, batches, installCall,
    warns1 ++ warns2⟩

/-- `_appmenus_create_onedir`: renders the directory-entry template
(propagating `DispvmNotSupportedError` when it raises there, which the
source does not catch), then the rest of the pass. -/
def onedirPass (env : VMEnv) (oracle : ExitOracle)
    (force dispvm keep_dispvm : Bool) (fs0 : Fs) : Except Unit PassResult :=
  let tpl := if dispvm then env.dirTemplateDispvm else env.dirTemplateNormal
  (renderDesktop tpl env.name.data env.vmdir (env.renderIcon dispvm)
      dispvm).map
    (fun dirData => passCore env oracle force dispvm keep_dispvm dirData fs0)

/-- `appmenus_create` (lines 287-317): skip entirely for internal or
auto-cleanup disposable VMs; run the normal-mode pass (with
`keep_dispvm` set exactly when a disposable companion pass is pending),
then the disposable-mode pass when the dispvm feature is on. Returns the
final directory contents and the per-pass results. -/
def appmenus_create (env : VMEnv) (o1 o2 : ExitOracle) (force : Bool)
    (fs0 : Fs) : Except Unit (Fs × List PassResult) :=
  if env.internalFeature || env.dispvmAutoCleanup then .ok (fs0, [])
  else do
    let r1 ← onedirPass env o1 force false env.dispvmFeature fs0
    if env.dispvmFeature then
      let r2 ← onedirPass env o2 force true false r1.fs
      .ok (r2.fs, [r1, r2])
    else
      .ok (r1.fs, [r1])

/-! ### Icon synchronization (`appicons_create`, lines 499-548) -/

/-- Generic association-list lookup (used for mtime tables). -/
def findEntry {α : Type} : List (String × α) → String → Option α
  | [], _ => none
  | (m, v) :: rest, n => if m = n then some v else findEntry rest n

/-- A source icon directory: its path and its listing together with each
file's modification time (`os.path.getmtime`). A directory that does
not exist behaves like one with an empty listing for every observable
of this routine. -/
structure SrcDir where
  path : String
  files : List (String × Nat)
deriving DecidableEq

/-- `Appmenus.template_for_file` (lines 100-106): the first source
directory whose listing contains `name`; returns its path paired with
the file's mtime. -/
def template_for_file (srcdirs : List SrcDir) (name : String) :
    Option (String × Nat) :=
  match srcdirs with
  | [] => none
  | d :: rest =>
    match findEntry d.files name with
    | some m => some (d.path, m)
    | none => template_for_file rest name

/-- Whitelist resolution inside `appicons_create` (lines 511-518):
feature value split on the space character, else the fully-stripped
lines of the legacy file (blank lines kept), else `none`. -/
def appicons_whitelist (menuItems : Option Text)
    (wfileLines : Option (List Text)) : Option (List Text) :=
  match menuItems with
  | some v => some (splitOnChar ' ' v)
  | none =>
    match wfileLines with
    | some lines => some (lines.map strip)
    | none => none

/-- `os.path.splitext(x)[0]`: everything before the last dot, except
that a name whose characters before the last dot are all dots is not
split. -/
def splitextBase (t : Text) : Text :=
  let r := t.reverse
  let rest := r.dropWhile (fun c => c ≠ '.')
  match rest with
  | [] => t
  | _ :: root => if root.all (fun c => c = '.') then t else root.reverse

/-- `expected_icons` (lines 527-534): whitelist entries with the
extension replaced by `.png` when a non-empty whitelist is active
(Python truthiness: an empty list behaves like no whitelist), else the
concatenation of all source listings. -/
def expected_icons (wl : Option (List Text)) (srcdirs : List SrcDir) :
    List String :=
  match wl with
  | some l =>
    if l.isEmpty then (srcdirs.map (fun d => d.files.map Prod.fst)).flatten
    else l.map (fun x => String.mk (splitextBase x ++ txt ".png"))
  | none => (srcdirs.map (fun d => d.files.map Prod.fst)).flatten

/-- The per-icon regeneration decision (lines 536-544): the source used
(first directory containing the icon) when the tint call fires, i.e.
when a source exists and the destination is absent, `force` is set, or
the source mtime strictly exceeds the destination's. -/
def icon_regen (srcdirs : List SrcDir) (dst : List (String × Nat))
    (force : Bool) (icon : String) : Option (String × Nat) :=
  match template_for_file srcdirs icon with
  | none => none
  | some (p, m) =>
    match findEntry dst icon with
    | none => some (p, m)
    | some dm => if force || decide (m > dm) then some (p, m) else none

/-- Result of `appicons_create`: the recorded tint invocations and the
final listing of the destination directory. -/
structure IconResult where
  tintCalls : List (String × String)
  finalDst : List String
deriving DecidableEq, Repr

/-- `Appmenus.appicons_create` (lines 499-548): skip for internal or
auto-cleanup disposable VMs or when no source directory resolves;
otherwise tint every expected icon whose regeneration condition fires,
then delete every destination file not in the expected set. -/
def appicons_create (menuItems : Option Text) (wfileLines : Option (List Text))
    (srcdirs : List SrcDir) (dst : List (String × Nat)) (force : Bool)
    (internal dispCleanup : Bool) : IconResult :=
  if srcdirs.isEmpty || internal || dispCleanup then ⟨[], dst.map Prod.fst⟩
  else
    let expected := expected_icons
      (appicons_whitelist menuItems wfileLines) srcdirs
    let tints := expected.filterMap (fun i =>
      (icon_regen srcdirs dst force i).map (fun pm => (pm.1, i)))
    let dstNames := dst.map Prod.fst
    let afterNames :=
      dstNames ++ (tints.map Prod.snd).filter (fun i => !dstNames.contains i)
    ⟨tints, afterNames.filter (fun i => expected.contains i)⟩

/-! ### A concrete VM used for evaluation -/

/-- All external commands succeed. -/
def demoOracle : ExitOracle := ⟨fun _ => false, false⟩

/-- A junk `PassResult` used by total accessors below. -/
def emptyPassResult : PassResult := ⟨[], false, [], [], [], [], none, []⟩

/-- Final file system of an `appmenus_create` run (empty on error). -/
def runFs (e : Except Unit (Fs × List PassResult)) : Fs :=
  match e with
  | .ok x => x.1
  | .error _ => []

/-- The i-th pass result of an `appmenus_create` run. -/
def runPass (e : Except Unit (Fs × List PassResult)) (i : Nat) : PassResult :=
  match e with
  | .ok x => x.2.getD i emptyPassResult
  | .error _ => emptyPassResult

/-- A VM named `w` whose template supports disposable VMs and has the
`appmenus-dispvm` feature on, with no application descriptors at all
and no whitelist. -/
def demoEnv : VMEnv where
  basedir := txt "/b"
  name := "w"
  icon := txt "appvm-red"
  labelName := txt "red"
  dirTemplateNormal :=
    txt "[Desktop Entry]\nType=Directory\nName=%VMNAME%\nIcon=%XDGICON%\n"
  dirTemplateDispvm :=
    txt "[Desktop Entry]\nType=Directory\nName=D %VMNAME%\nIcon=%XDGICON%\n"
  settingsTemplate :=
    txt "[Desktop Entry]\nName=%VMNAME%: Settings\nIcon=%VMDIR%/i.png\n"
  menuItemsFeature := none
  whitelistFileLines := none
  avail := []
  internalFeature := false
  dispvmAutoCleanup := false
  dispvmFeature := true

/-- The same VM with the disposable feature off. -/
def demoEnvNoDisp : VMEnv := { demoEnv with dispvmFeature := false }

/-- First `appmenus_create` run on an empty `apps` directory. -/
def demoRun1 : Except Unit (Fs × List PassResult) :=
  appmenus_create demoEnv demoOracle demoOracle false []

/-- Second run, on the state the first run left behind. -/
def demoRun2 : Except Unit (Fs × List PassResult) :=
  appmenus_create demoEnv demoOracle demoOracle false (runFs demoRun1)

/-- First run for the no-disposable variant. -/
def demoRunND1 : Except Unit (Fs × List PassResult) :=
  appmenus_create demoEnvNoDisp demoOracle demoOracle false []

/-- Second run for the no-disposable variant. -/
def demoRunND2 : Except Unit (Fs × List PassResult) :=
  appmenus_create demoEnvNoDisp demoOracle demoOracle false (runFs demoRunND1)

/-- Result of a single `_appmenus_create_onedir` run (junk on error). -/
def passOf (e : Except Unit PassResult) : PassResult :=
  match e with
  | .ok r => r
  | .error _ => emptyPassResult

/-- A descriptor with a normal launch command field but no
disposable-launch command field. -/
def errDescriptor : Text := txt "[Desktop Entry]\nName=%VMNAME%: A\nExec=run\n"

/-- `demoEnv` with that single descriptor available. -/
def demoEnvErr : VMEnv := { demoEnv with avail := [("a.desktop", errDescriptor)] }

/-- A disposable-mode pass over `demoEnvErr` starting from an empty
`apps` directory. -/
def onedirPassDemoErr (force : Bool) : Except Unit PassResult :=
  onedirPass demoEnvErr demoOracle force true false []

end Qubesappmenus

namespace Qubesappmenus

-- sanity examples exercising the Python-semantics text utilities
example : splitOnChar ' ' (txt "a  b") = [txt "a", txt "", txt "b"] := by decide
example : splitOnChar ' ' (txt "") = [txt ""] := by decide
example : replaceAll (txt "aXbXc") (txt "X") (txt "YY") = txt "aYYbYYc" := by decide
example : containsPat (txt "abc") (txt "bc") = true := by decide
example : containsPat (txt "abc") (txt "ac") = false := by decide
example : rstrip (txt " a \t") = txt " a" := by decide
example : strip (txt " a \t") = txt "a" := by decide

/-! ### File-system lemmas -/

theorem Fs.find_write_self (fs : Fs) (n : String) (c : Text) :
    Fs.find (Fs.write fs n c) n = some c := by
  induction fs with
  | nil => simp [Fs.write, Fs.find]
  | cons p rest ih =>
    obtain ⟨m, c0⟩ := p
    by_cases h : m = n
    · subst h; simp [Fs.write, Fs.find]
    · simp [Fs.write, Fs.find, h, ih]

theorem Fs.find_write_ne (fs : Fs) (n m : String) (c : Text) (h : m ≠ n) :
    Fs.find (Fs.write fs n c) m = Fs.find fs m := by
  induction fs with
  | nil => simp [Fs.write, Fs.find, (Ne.symm h : n ≠ m)]
  | cons p rest ih =>
    obtain ⟨k, c0⟩ := p
    by_cases hk : k = n
    · subst hk
      have : k ≠ m := fun hh => h (hh ▸ rfl)
      simp [Fs.write, Fs.find, this]
    · simp only [Fs.write, if_neg hk]
      by_cases hm : k = m
      · subst hm; simp [Fs.find]
      · simp [Fs.find, hm, ih]

theorem Fs.find_erase_self (fs : Fs) (n : String) :
    Fs.find (Fs.erase fs n) n = none := by
  induction fs with
  | nil => simp [Fs.erase, Fs.find]
  | cons p rest ih =>
    obtain ⟨m, c⟩ := p
    by_cases h : m = n
    · subst h; simpa [Fs.erase, Fs.find] using ih
    · simpa [Fs.erase, Fs.find, h] using ih

theorem Fs.find_erase_ne (fs : Fs) (n m : String) (h : m ≠ n) :
    Fs.find (Fs.erase fs n) m = Fs.find fs m := by
  induction fs with
  | nil => simp [Fs.erase, Fs.find]
  | cons p rest ih =>
    obtain ⟨k, c⟩ := p
    by_cases hk : k = n
    · subst hk
      have : k ≠ m := fun hh => h (hh ▸ rfl)
      simpa [Fs.erase, Fs.find, this] using ih
    · by_cases hm : k = m
      · subst hm; simp [Fs.erase, Fs.find, hk]
      · simpa [Fs.erase, Fs.find, hk, hm] using ih

theorem writeDesktopFile_find (fs : Fs) (n : String) (d : Text) :
    Fs.find (writeDesktopFile fs n d).2 n = some d := by
  unfold writeDesktopFile
  cases h : Fs.find fs n with
  | none => simp [Fs.find_write_self]
  | some cur =>
    by_cases hc : cur = d
    · simp [hc, h]
    · simp [hc, Fs.find_write_self]

theorem writeDesktopFile_find_ne (fs : Fs) (n m : String) (d : Text)
    (h : m ≠ n) :
    Fs.find (writeDesktopFile fs n d).2 m = Fs.find fs m := by
  unfold writeDesktopFile
  cases hf : Fs.find fs n with
  | none => simp [Fs.find_write_ne _ _ _ _ h]
  | some cur =>
    by_cases hc : cur = d
    · simp [hc]
    · simp [hc, Fs.find_write_ne _ _ _ _ h]

theorem writeDesktopFile_idem (fs : Fs) (n : String) (d : Text) :
    writeDesktopFile (writeDesktopFile fs n d).2 n d =
      (false, (writeDesktopFile fs n d).2) := by
  have h := writeDesktopFile_find fs n d
  generalize (writeDesktopFile fs n d).2 = fs' at h ⊢
  unfold writeDesktopFile
  rw [h]
  simp

/-! ### Claim C2 -/

/-- **C2.** Rendering a launcher is deterministic: the rendered text is a
pure function of (descriptor content, VM name, VM directory, resolved
icon, dispvm flag), so a second rendering of the same inputs yields the
byte-identical output `data`; when the destination file already holds
exactly `data`, `write_desktop_file` leaves the file system unmodified
and returns `False`; otherwise it writes `data` and returns `True`. -/
theorem write_desktop_file_c2
    (source vmname vmdir icon : Text) (dispvm : Bool) (data : Text)
    (hdata : renderDesktop source vmname vmdir icon dispvm = .ok data)
    (fs : Fs) (name : String) :
    renderDesktop source vmname vmdir icon dispvm = .ok data ∧
    (Fs.find fs name = some data → writeDesktopFile fs name data = (false, fs)) ∧
    (Fs.find fs name ≠ some data →
      writeDesktopFile fs name data = (true, Fs.write fs name data) ∧
      Fs.find (Fs.write fs name data) name = some data) := by
  refine ⟨hdata, ?_, ?_⟩
  · intro h
    unfold writeDesktopFile
    rw [h]
    simp
  · intro h
    refine ⟨?_, Fs.find_write_self fs name data⟩
    unfold writeDesktopFile
    cases hf : Fs.find fs name with
    | none => rfl
    | some cur =>
      have hne : cur ≠ data := fun hc => h (hf.trans (congrArg some hc))
      simp [hne]

/-- Witness for C2 at a concrete descriptor, VM and file system. -/
theorem write_desktop_file_c2_witness :
    writeDesktopFile [] "f" (txt "N=w") = (true, [("f", txt "N=w")]) ∧
    writeDesktopFile [("f", txt "N=w")] "f" (txt "N=w") =
      (false, [("f", txt "N=w")]) := by
  have h1 := write_desktop_file_c2 (txt "N=%VMNAME%") (txt "w") (txt "/b/w")
    (txt "i") false (txt "N=w") rfl [] "f"
  have h2 := write_desktop_file_c2 (txt "N=%VMNAME%") (txt "w") (txt "/b/w")
    (txt "i") false (txt "N=w") rfl [("f", txt "N=w")] "f"
  refine ⟨?_, h2.2.1 (by decide)⟩
  have h3 := (h1.2.2 (by decide)).1
  simpa using h3

/-! ### Claim C10 -/

/-- **C10.** With `dispvm=True` the renderer raises the
disposable-not-supported error exactly when the source contains the
substring `'\nExec='` (newline immediately followed by `Exec=`) and does
not contain `'\nX-Qubes-DispvmExec='`; in particular a descriptor whose
very first line is an `Exec=` field does not raise and is silently
transformed and rendered. -/
theorem render_dispvm_error_iff_c10 (source vmname vmdir icon : Text) :
    (renderDesktop source vmname vmdir icon true = .error () ↔
      containsPat source nlExecPat = true ∧
        containsPat source nlDispPat = false) ∧
    renderDesktop (txt "Exec=a\nName=n") (txt "v") (txt "/b/v") (txt "i")
        true = .ok (txt "Exec=a\nName=n") := by
  constructor
  · constructor
    · intro h
      by_cases h1 : containsPat source nlDispPat <;>
        by_cases h2 : containsPat source nlExecPat <;>
        simp [renderDesktop, h1, h2] at h ⊢
    · rintro ⟨h2, h1⟩
      simp [renderDesktop, h1, h2]
  · rfl

/-! ### Descriptor enumeration lemmas -/

theorem scanDir_mem (d : String) (files : List String) :
    ∀ (listed : List String) (p : String × String),
      p ∈ (scanDir d files listed).1 ↔
        (p.1 = d ∧ p.2 ∈ files ∧ p.2 ∉ listed) := by
  induction files with
  | nil => intro listed p; simp [scanDir]
  | cons f rest ih =>
    intro listed p
    simp only [scanDir]
    by_cases h : f ∈ listed
    · rw [if_pos (by simpa using h), ih]
      constructor
      · rintro ⟨h1, h2, h3⟩
        exact ⟨h1, List.mem_cons_of_mem _ h2, h3⟩
      · rintro ⟨h1, h2, h3⟩
        rcases List.mem_cons.mp h2 with hf | h2
        · exact absurd (hf ▸ h) h3
        · exact ⟨h1, h2, h3⟩
    · rw [if_neg (by simpa using h)]
      simp only [List.mem_cons]
      constructor
      · rintro (rfl | hmem)
        · exact ⟨rfl, Or.inl rfl, h⟩
        · obtain ⟨h1, h2, h3⟩ := (ih _ _).mp hmem
          simp only [List.mem_cons, not_or] at h3
          exact ⟨h1, Or.inr h2, h3.2⟩
      · rintro ⟨h1, h2, h3⟩
        by_cases hf : p.2 = f
        · left
          obtain ⟨a, b⟩ := p
          simp only at h1 hf
          rw [h1, hf]
        · right
          rcases h2 with h2 | h2
          · exact absurd h2 hf
          · exact (ih _ _).mpr ⟨h1, h2, by
              simp only [List.mem_cons, not_or]
              exact ⟨hf, h3⟩⟩

theorem scanDir_listed (d : String) (files : List String) :
    ∀ (listed : List String) (f : String),
      f ∈ (scanDir d files listed).2 ↔ (f ∈ listed ∨ f ∈ files) := by
  induction files with
  | nil => intro listed f; simp [scanDir]
  | cons g rest ih =>
    intro listed f
    simp only [scanDir]
    by_cases h : g ∈ listed
    · rw [if_pos (by simpa using h), ih]
      constructor
      · rintro (h1 | h1)
        · exact Or.inl h1
        · exact Or.inr (List.mem_cons_of_mem _ h1)
      · rintro (h1 | h1)
        · exact Or.inl h1
        · rcases List.mem_cons.mp h1 with rfl | h1
          · exact Or.inl h
          · exact Or.inr h1
    · rw [if_neg (by simpa using h)]
      dsimp only
      rw [ih]
      simp only [List.mem_cons]
      tauto

theorem avail_mem (world : DirWorld) (d f : String) :
    ∀ (dirs listed : List String),
      ((d, f) ∈ get_available_filenames world dirs listed ↔
        (f ∉ listed ∧ firstDirWith world f dirs = some d)) := by
  intro dirs
  induction dirs with
  | nil => intro listed; simp [get_available_filenames, firstDirWith]
  | cons d0 rest ih =>
    intro listed
    simp only [get_available_filenames, firstDirWith]
    cases hw : world d0 with
    | none => exact ih listed
    | some files =>
      simp only [List.mem_append]
      by_cases hf : f ∈ files
      · rw [if_pos (by simpa using hf)]
        constructor
        · rintro (hmem | hmem)
          · obtain ⟨h1, _, h3⟩ := (scanDir_mem d0 files listed _).mp hmem
            simp only at h1 h3
            exact ⟨h3, by rw [h1]⟩
          · obtain ⟨h1, _⟩ := (ih _).mp hmem
            exact absurd ((scanDir_listed d0 files listed f).mpr
              (Or.inr hf)) h1
        · rintro ⟨h1, h2⟩
          injection h2 with h2
          exact Or.inl ((scanDir_mem d0 files listed _).mpr
            ⟨h2.symm, hf, h1⟩)
      · rw [if_neg (by simpa using hf)]
        constructor
        · rintro (hmem | hmem)
          · obtain ⟨_, h2, _⟩ := (scanDir_mem d0 files listed _).mp hmem
            exact absurd h2 hf
          · obtain ⟨h1, h2⟩ := (ih _).mp hmem
            refine ⟨fun hl => h1 ?_, h2⟩
            exact (scanDir_listed d0 files listed f).mpr (Or.inl hl)
        · rintro ⟨h1, h2⟩
          refine Or.inr ((ih _).mpr ⟨?_, h2⟩)
          rw [scanDir_listed]
          rintro (hl | hl)
          · exact h1 hl
          · exact hf hl

theorem scanDir_snd_nodup (d : String) (files : List String) :
    ∀ (listed : List String),
      ((scanDir d files listed).1.map Prod.snd).Nodup := by
  induction files with
  | nil => intro listed; simp [scanDir]
  | cons f rest ih =>
    intro listed
    simp only [scanDir]
    by_cases h : f ∈ listed
    · rw [if_pos (by simpa using h)]
      exact ih listed
    · rw [if_neg (by simpa using h)]
      refine List.nodup_cons.mpr ⟨?_, ih (f :: listed)⟩
      intro hmem
      obtain ⟨p, hp, hpf⟩ := List.mem_map.mp hmem
      obtain ⟨_, _, h3⟩ := (scanDir_mem d rest (f :: listed) p).mp hp
      exact h3 (hpf ▸ List.mem_cons_self f listed)

theorem avail_snd_nodup (world : DirWorld) :
    ∀ (dirs listed : List String),
      ((get_available_filenames world dirs listed).map Prod.snd).Nodup ∧
      (∀ f ∈ (get_available_filenames world dirs listed).map Prod.snd,
        f ∉ listed) := by
  intro dirs
  induction dirs with
  | nil => intro listed; simp [get_available_filenames]
  | cons d0 rest ih =>
    intro listed
    simp only [get_available_filenames]
    cases hw : world d0 with
    | none => exact ih listed
    | some files =>
      simp only [List.map_append, List.mem_append]
      obtain ⟨ihn, ihl⟩ := ih (scanDir d0 files listed).2
      constructor
      · refine List.Nodup.append (scanDir_snd_nodup d0 files listed) ihn ?_
        intro f hf1 hf2
        obtain ⟨p, hp, hpf⟩ := List.mem_map.mp hf1
        have h2 := (scanDir_mem d0 files listed p).mp hp
        have : f ∈ (scanDir d0 files listed).2 :=
          (scanDir_listed d0 files listed f).mpr (Or.inr (hpf ▸ h2.2.1))
        exact ihl f hf2 this
      · intro f hf
        rcases hf with hf | hf
        · obtain ⟨p, hp, hpf⟩ := List.mem_map.mp hf
          exact hpf ▸ ((scanDir_mem d0 files listed p).mp hp).2.2
        · intro hl
          exact ihl f hf ((scanDir_listed d0 files listed f).mpr (Or.inl hl))

/-! ### Claim C4 -/

/-- **C4.** Template-chain resolution returns the VM's own directory
followed by the resolution of the override template if given, else of
the VM's own template if present, else nothing; a two-level chain yields
exactly three directories nearest-first; and descriptor enumeration
yields each filename at most once, from the first (nearest) existing
directory listing it, silently skipping paths that are not
directories. -/
theorem templates_dirs_c4 (basedir : String) (world : DirWorld)
    (vm t : VMT) (n na nb : String) (dirs : List String) (d f : String) :
    templates_dirs basedir vm (some t) =
      tplDir basedir vm.name :: templates_dirs basedir t none ∧
    templates_dirs basedir (VMT.derived n t) none =
      tplDir basedir n :: templates_dirs basedir t none ∧
    templates_dirs basedir (VMT.base n) none = [tplDir basedir n] ∧
    templates_dirs basedir (VMT.derived n (VMT.derived na (VMT.base nb)))
        none =
      [tplDir basedir n, tplDir basedir na, tplDir basedir nb] ∧
    ((d, f) ∈ get_available_filenames world dirs [] ↔
      firstDirWith world f dirs = some d) ∧
    ((get_available_filenames world dirs []).map Prod.snd).Nodup := by
  refine ⟨rfl, rfl, rfl, rfl, ?_, (avail_snd_nodup world dirs []).1⟩
  rw [avail_mem]
  simp

/-! ### Claim C3 -/

theorem contains_filter_ne_nil (x : Text) (hx : x ≠ []) (l : List Text) :
    (l.filter (fun e => e ≠ [])).contains x = l.contains x := by
  induction l with
  | nil => rfl
  | cons a as ih =>
    by_cases ha : a = []
    · subst ha
      simp only [List.filter_cons]
      rw [if_neg (by simp)]
      rw [ih]
      simp [hx]
    · simp only [List.filter_cons]
      rw [if_pos (by simpa using ha)]
      simp [hx]

/-- **C3 counterexample.** The claim as stated fails on the code: (1) a
`menu-items` feature value holding a tab is split on whitespace per the
claim but the code splits only on the space character, so a descriptor
the claim admits is filtered out; (2) a legacy whitelist line with a
leading space is trimmed per the claim but the code only right-strips
it, again dropping a descriptor the claim admits. -/
theorem whitelist_c3_counterexample :
    filterMenus [("a.desktop", txt "X")]
        (effective_whitelist (some (txt "a.desktop\tb.desktop")) none) =
      [] ∧
    filterMenus [("a.desktop", txt "X")]
        (claim_whitelist (some (txt "a.desktop\tb.desktop")) none) =
      [("a.desktop", txt "X")] ∧
    get_whitelist (some (txt "a.desktop\tb.desktop")) none =
      [txt "a.desktop\tb.desktop"] ∧
    filterMenus [("a.desktop", txt "X")]
        (effective_whitelist none (some [txt " a.desktop\n"])) = [] ∧
    filterMenus [("a.desktop", txt "X")]
        (claim_whitelist none (some [txt " a.desktop\n"])) =
      [("a.desktop", txt "X")] := by decide

/-- **C3 (amended).** Whitelist priority: a present `menu-items` feature
value is split on the single space character and only that list is
honored (the legacy file is ignored even if it exists; `get_whitelist`
additionally strips each entry and drops blanks, and blank entries never
change which descriptors pass the filter); else an existing legacy file
contributes its right-stripped lines; else the result is `none`, meaning
every available descriptor is exposed unfiltered. -/
theorem whitelist_resolution_c3 (v : Text) (wfl : Option (List Text))
    (lines : List Text) (menus : List (String × Text))
    (hmenus : ∀ p ∈ menus, p.1.data ≠ []) :
    effective_whitelist (some v) wfl = some (splitOnChar ' ' v) ∧
    get_whitelist (some v) wfl =
      ((splitOnChar ' ' v).map strip).filter (fun e => e ≠ []) ∧
    filterMenus menus (some (splitOnChar ' ' v)) =
      filterMenus menus
        (some ((splitOnChar ' ' v).filter (fun e => e ≠ []))) ∧
    effective_whitelist none (some lines) = some (lines.map rstrip) ∧
    get_whitelist none (some lines) =
      (lines.map strip).filter (fun l => l ≠ []) ∧
    effective_whitelist none none = none ∧
    filterMenus menus none = menus := by
  refine ⟨rfl, rfl, ?_, rfl, rfl, rfl, rfl⟩
  simp only [filterMenus]
  apply List.filter_congr
  intro p hp
  rw [contains_filter_ne_nil p.1.data (hmenus p hp)]

/-- Witness for C3 at a concrete feature value and menu list. -/
theorem whitelist_resolution_c3_witness :
    filterMenus [("a.desktop", txt "X")]
        (some (splitOnChar ' ' (txt " a.desktop"))) =
      filterMenus [("a.desktop", txt "X")]
        (some ((splitOnChar ' ' (txt " a.desktop")).filter
          (fun e => e ≠ []))) :=
  (whitelist_resolution_c3 (txt " a.desktop") none [] [("a.desktop", txt "X")]
    (by decide)).2.2.1

/-! ### Deletion lemmas -/

theorem find_foldl_erase_none (l : List String) :
    ∀ (fs : Fs) (n : String), Fs.find fs n = none →
      Fs.find (l.foldl Fs.erase fs) n = none := by
  induction l with
  | nil => intro fs n h; simpa using h
  | cons m rest ih =>
    intro fs n h
    simp only [List.foldl_cons]
    apply ih
    by_cases hm : n = m
    · subst hm; exact Fs.find_erase_self fs n
    · rw [Fs.find_erase_ne fs m n hm]; exact h

theorem find_foldl_erase_of_mem (l : List String) :
    ∀ (fs : Fs) (n : String), n ∈ l →
      Fs.find (l.foldl Fs.erase fs) n = none := by
  induction l with
  | nil => intro fs n h; simp at h
  | cons m rest ih =>
    intro fs n h
    simp only [List.foldl_cons]
    rcases List.mem_cons.mp h with rfl | h
    · exact find_foldl_erase_none rest _ n (Fs.find_erase_self fs n)
    · exact ih _ n h

theorem find_foldl_erase_not_mem (l : List String) :
    ∀ (fs : Fs) (n : String), n ∉ l →
      Fs.find (l.foldl Fs.erase fs) n = Fs.find fs n := by
  induction l with
  | nil => intro fs n _; rfl
  | cons m rest ih =>
    intro fs n h
    simp only [List.mem_cons, not_or] at h
    simp only [List.foldl_cons]
    rw [ih _ n h.2, Fs.find_erase_ne fs m n h.1]

theorem mem_sort_entries (l : List String) (x : String) :
    x ∈ sort_entries l ↔ x ∈ l := by
  simp only [sort_entries, List.mem_append, List.mem_filter]
  by_cases h : endswith x ".directory" <;> simp [h]

theorem batches_subset (l : List String) (b : List String)
    (hb : b ∈ do_remove_batches l) (x : String) (hx : x ∈ b) : x ∈ l := by
  simp only [do_remove_batches, List.mem_append] at hb
  have hmem : b = sort_entries (l.filter (fun y => is_old_path y)) ∨
      b = sort_entries (l.filter (fun y => !is_old_path y)) := by
    rcases hb with hb | hb
    · left
      by_cases h : (sort_entries (l.filter (fun y => is_old_path y))).isEmpty
      · rw [if_pos h] at hb; simp at hb
      · rw [if_neg h] at hb; simpa using hb
    · right
      by_cases h : (sort_entries (l.filter (fun y => !is_old_path y))).isEmpty
      · rw [if_pos h] at hb; simp at hb
      · rw [if_neg h] at hb; simpa using hb
  rcases hmem with rfl | rfl <;>
    exact (List.mem_filter.mp ((mem_sort_entries _ x).mp hx)).1

/-! ### Claim C7 -/

/-- **C7.** The install decision of a synchronization pass: the pass
invokes the external install command exactly per `installDecision`; no
install call happens when nothing changed and `force` is off; with
`force`, or when the directory entry changed while no launcher content
changed, the full target set is registered (headed by the directory
file; no call at all when the target set is empty); otherwise exactly
the launchers whose content changed are registered; and a non-zero exit
of the install command affects only the warning log, never the file
system or the recorded command lines. -/
theorem install_decision_c7 (env : VMEnv) (o o2 : ExitOracle)
    (force dispvm keep_dispvm : Bool) (dirData : Text) (fs0 : Fs)
    (dirChanged : Bool) (changed target : List String) (dirName : String)
    (hch : changed ≠ []) :
    ((passCore env o force dispvm keep_dispvm dirData fs0).installCall =
      installDecision force
        (passCore env o force dispvm keep_dispvm dirData fs0).dirChanged
        (passCore env o force dispvm keep_dispvm dirData fs0).changed
        (passCore env o force dispvm keep_dispvm dirData fs0).target
        (directory_file_name env.name dispvm)) ∧
    installDecision false false [] target dirName = none ∧
    installDecision true dirChanged changed target dirName =
      (if target.isEmpty then none else some (dirName :: target)) ∧
    installDecision false true [] target dirName =
      (if target.isEmpty then none else some (dirName :: target)) ∧
    installDecision false dirChanged changed target dirName =
      some (dirName :: changed) ∧
    (passCore env o2 force dispvm keep_dispvm dirData fs0).fs =
      (passCore env o force dispvm keep_dispvm dirData fs0).fs ∧
    (passCore env o2 force dispvm keep_dispvm dirData fs0).uninstallCalls =
      (passCore env o force dispvm keep_dispvm dirData fs0).uninstallCalls ∧
    (passCore env o2 force dispvm keep_dispvm dirData fs0).installCall =
      (passCore env o force dispvm keep_dispvm dirData fs0).installCall := by
  have hemp : changed.isEmpty = false := by
    cases changed with
    | nil => exact absurd rfl hch
    | cons a l => rfl
  refine ⟨rfl, rfl, ?_, rfl, ?_, rfl, rfl, rfl⟩
  · simp [installDecision]
  · simp [installDecision, hemp]

/-- Witness for C7 at a concrete non-empty changed list. -/
theorem install_decision_c7_witness :
    installDecision false true ["c"] ["t1", "t2"] "dir" = some ["dir", "c"] := by
  have h := install_decision_c7 demoEnv demoOracle demoOracle false false
    false [] [] true ["c"] ["t1", "t2"] "dir" (by decide)
  exact h.2.2.2.2.1

/-! ### Claim C6 -/

/-- **C6 counterexample.** `_sort_entries` sorts with key
`not x.endswith('.directory')`, so `.directory` entries sort FIRST, not
last as the claim states: for the stale set
`['x.desktop', 'y.directory']` (both old-scheme names) the single
uninstall batch the code produces is `['y.directory', 'x.desktop']`,
not the claimed `['x.desktop', 'y.directory']`. -/
theorem sort_c6_counterexample :
    do_remove_batches ["x.desktop", "y.directory"] =
      [["y.directory", "x.desktop"]] ∧
    sort_entries ["x.desktop", "y.directory"] ≠
      ["x.desktop", "y.directory"] := by decide

/-- **C6 (amended).** Stale-entry removal partitions the stale set into
an old-naming-scheme subset and a current-scheme subset, invokes the
external uninstall command at most once per non-empty batch with the
old-scheme batch first, sorts each batch so that directory-type entries
(names ending in `.directory`) sort FIRST within the batch (stable
collation-independent key sort; the collation override is applied to
the subprocess environment), and then deletes the corresponding files
from disk; a non-zero exit from the uninstall command is reported as a
warning only, and the local file deletions still proceed. -/
theorem remove_batches_c6 (env : VMEnv) (o o2 : ExitOracle)
    (force dispvm keep_dispvm : Bool) (dirData : Text) (fs0 : Fs)
    (toRemove : List String) (x : String)
    (hx : x ∈ (passCore env o force dispvm keep_dispvm dirData fs0).stale) :
    (passCore env o force dispvm keep_dispvm dirData fs0).uninstallCalls =
      do_remove_batches
        (passCore env o force dispvm keep_dispvm dirData fs0).stale ∧
    do_remove_batches toRemove =
      (if (sort_entries (toRemove.filter (fun y => is_old_path y))).isEmpty
        then []
        else [sort_entries (toRemove.filter (fun y => is_old_path y))]) ++
      (if (sort_entries (toRemove.filter (fun y => !is_old_path y))).isEmpty
        then []
        else [sort_entries (toRemove.filter (fun y => !is_old_path y))]) ∧
    sort_entries toRemove =
      toRemove.filter (fun y => endswith y ".directory") ++
        toRemove.filter (fun y => !endswith y ".directory") ∧
    (sort_entries toRemove).Perm toRemove ∧
    Fs.find (passCore env o force dispvm keep_dispvm dirData fs0).fs x =
      none ∧
    (passCore env o2 force dispvm keep_dispvm dirData fs0).fs =
      (passCore env o force dispvm keep_dispvm dirData fs0).fs := by
  refine ⟨rfl, rfl, rfl, ?_, ?_, rfl⟩
  · exact List.filter_append_perm _ toRemove
  · exact find_foldl_erase_of_mem _ _ x hx

/-- Witness for C6: a pass whose stale set is non-empty (the stale file
`old-stale.desktop` is on disk beforehand, not in the target set). -/
theorem remove_batches_c6_witness :
    Fs.find (passCore demoEnv demoOracle false false false (txt "D")
      [("old-stale.desktop", txt "S")]).fs "old-stale.desktop" = none := by
  have h := remove_batches_c6 demoEnv demoOracle demoOracle false false false
    (txt "D") [("old-stale.desktop", txt "S")] [] "old-stale.desktop"
    (by decide)
  exact h.2.2.2.2.1

/-! ### Name-prefix lemmas -/

theorem isPrefixOf_append_false (p : List Char) :
    ∀ (q t : List Char), p.isPrefixOf q = false → q.isPrefixOf p = false →
      p.isPrefixOf (q ++ t) = false := by
  induction p with
  | nil => intro q t h1 _; simp [List.isPrefixOf] at h1
  | cons a as ih =>
    intro q t h1 h2
    cases q with
    | nil => simp [List.isPrefixOf] at h2
    | cons b bs =>
      by_cases hab : a = b
      · subst hab
        simp only [List.isPrefixOf, List.cons_append, beq_self_eq_true,
          Bool.true_and] at h1 h2 ⊢
        exact ih bs t h1 h2
      · simp only [List.cons_append, List.isPrefixOf]
        simp [hab]

theorem ne_of_startswith (n w p : String)
    (hn : startswith n p = true) (hw : startswith w p = false) : n ≠ w := by
  intro h
  rw [h, hw] at hn
  cases hn

theorem desktop_name_normal_not_dispvm_prefixed (vm b : String) :
    startswith (desktop_name vm b false) qubes_dispvm_desktop = false ∧
    startswith (desktop_name vm b false) "qubes-dispvm-directory-" = false := by
  constructor <;>
  · simp only [startswith, desktop_name, qubes_vm_desktop,
      qubes_dispvm_desktop, if_neg (by simp : ¬False), Bool.false_eq_true,
      ite_false, String.data_append, List.append_assoc]
    exact isPrefixOf_append_false _ _ _ (by decide) (by decide)

theorem settings_name_not_dispvm_prefixed (vm : String) :
    startswith (settings_name vm) qubes_dispvm_desktop = false ∧
    startswith (settings_name vm) "qubes-dispvm-directory-" = false := by
  constructor <;>
  · simp only [startswith, settings_name, qubes_vm_desktop_settings,
      qubes_dispvm_desktop, String.data_append, List.append_assoc]
    exact isPrefixOf_append_false _ _ _ (by decide) (by decide)

theorem directory_name_normal_not_dispvm_prefixed (vm : String) :
    startswith (directory_file_name vm false) qubes_dispvm_desktop = false ∧
    startswith (directory_file_name vm false) "qubes-dispvm-directory-" =
      false := by
  constructor <;>
  · simp only [startswith, directory_file_name, qubes_dispvm_desktop,
      Bool.false_eq_true, ite_false, String.data_append, List.append_assoc]
    exact isPrefixOf_append_false _ _ _ (by decide) (by decide)

theorem desktop_name_dispvm_not_vm_prefixed (vm b : String) :
    startswith (desktop_name vm b true) qubes_vm_desktop = false ∧
    startswith (desktop_name vm b true) "qubes-vm-directory-" = false := by
  constructor <;>
  · simp only [startswith, desktop_name, qubes_vm_desktop,
      qubes_dispvm_desktop, ite_true, String.data_append, List.append_assoc]
    exact isPrefixOf_append_false _ _ _ (by decide) (by decide)

theorem directory_name_dispvm_not_vm_prefixed (vm : String) :
    startswith (directory_file_name vm true) qubes_vm_desktop = false ∧
    startswith (directory_file_name vm true) "qubes-vm-directory-" =
      false := by
  constructor <;>
  · simp only [startswith, directory_file_name, qubes_vm_desktop, ite_true,
      String.data_append, List.append_assoc]
    exact isPrefixOf_append_false _ _ _ (by decide) (by decide)

theorem desktop_name_inj (vmname : String) (dispvm : Bool) (b1 b2 : String)
    (h : desktop_name vmname b1 dispvm = desktop_name vmname b2 dispvm) :
    b1 = b2 := by
  have hd := congrArg String.data h
  simp only [desktop_name, String.data_append] at hd
  have hc := List.append_cancel_left hd
  cases b1
  cases b2
  exact congrArg String.mk hc

/-! ### `processMenus` lemmas -/

theorem processMenus_find_other (vmname : String) (vmdir icon : Text)
    (dispvm : Bool) (n : String) :
    ∀ (menus : List (String × Text)) (fs : Fs),
      (∀ p ∈ menus, desktop_name vmname p.1 dispvm ≠ n) →
      Fs.find (processMenus vmname vmdir icon dispvm menus fs).1 n =
        Fs.find fs n := by
  intro menus
  induction menus with
  | nil => intro fs _; rfl
  | cons bc rest ih =>
    intro fs h
    obtain ⟨base, content⟩ := bc
    have hne : desktop_name vmname base dispvm ≠ n :=
      h (base, content) (List.mem_cons_self _ _)
    have hrest : ∀ p ∈ rest, desktop_name vmname p.1 dispvm ≠ n :=
      fun p hp => h p (List.mem_cons_of_mem _ hp)
    simp only [processMenus]
    cases hr : renderDesktop content vmname.data vmdir icon dispvm with
    | ok data =>
      dsimp only
      rw [ih _ hrest]
      exact writeDesktopFile_find_ne fs _ n data (Ne.symm hne)
    | error e =>
      dsimp only
      rw [ih _ hrest]
      exact Fs.find_erase_ne fs _ n (Ne.symm hne)

theorem processMenus_find_err (vmname : String) (vmdir icon : Text)
    (dispvm : Bool) (base : String) (content : Text) :
    ∀ (menus : List (String × Text)) (fs : Fs),
      (base, content) ∈ menus →
      (menus.map Prod.fst).Nodup →
      renderDesktop content vmname.data vmdir icon dispvm = .error () →
      Fs.find (processMenus vmname vmdir icon dispvm menus fs).1
        (desktop_name vmname base dispvm) = none := by
  intro menus
  induction menus with
  | nil => intro fs h; intro _ _; simp at h
  | cons bc rest ih =>
    intro fs hmem hnodup herr
    obtain ⟨b0, c0⟩ := bc
    have hnodup' : (b0 ∉ rest.map Prod.fst) ∧ (rest.map Prod.fst).Nodup := by
      rw [List.map_cons] at hnodup
      exact List.nodup_cons.mp hnodup
    rcases List.mem_cons.mp hmem with heq | hmem'
    · injection heq with hb hc
      subst hb
      subst hc
      have hrest : ∀ p ∈ rest,
          desktop_name vmname p.1 dispvm ≠
            desktop_name vmname base dispvm := by
        intro p hp hpe
        exact hnodup'.1 ((desktop_name_inj vmname dispvm p.1 base hpe) ▸
          List.mem_map_of_mem Prod.fst hp)
      simp only [processMenus]
      rw [herr]
      dsimp only
      rw [processMenus_find_other vmname vmdir icon dispvm _ rest _ hrest]
      exact Fs.find_erase_self fs _
    · simp only [processMenus]
      cases hr : renderDesktop c0 vmname.data vmdir icon dispvm with
      | ok data =>
        dsimp only
        exact ih _ hmem' hnodup'.2 herr
      | error e =>
        dsimp only
        exact ih _ hmem' hnodup'.2 herr

/-- The filtered menu list is a sublist of the available list. -/
theorem filterMenus_sublist (menus : List (String × Text))
    (wl : Option (List Text)) : (filterMenus menus wl).Sublist menus := by
  cases wl with
  | none => exact List.Sublist.refl menus
  | some l => exact List.filter_sublist menus

/-! ### Claim C5 -/

/-- **C5 counterexample.** The failing descriptor is NOT excluded from
the target set: with one available descriptor `a.desktop` that has a
normal `Exec=` but no `X-Qubes-DispvmExec=`, the disposable pass leaves
no launcher file for it, yet `target_appmenus` still contains its
launcher name, and a forced run would even pass the nonexistent file to
the install command. -/
theorem dispvm_target_c5_counterexample :
    (passOf (onedirPassDemoErr false)).target =
      ["org.qubes-os.dispvm.w.a.desktop"] ∧
    Fs.find (passOf (onedirPassDemoErr false)).fs
      "org.qubes-os.dispvm.w.a.desktop" = none ∧
    (passOf (onedirPassDemoErr false)).installCall =
      some ["qubes-dispvm-directory-w.directory",
        "org.qubes-os.dispvm.w.a.desktop"] := by decide

/-- **C5 (amended).** In a disposable-mode synchronization pass, a
descriptor whose rendering signals the disposable-not-supported error is
handled at single-descriptor granularity: no launcher file for it exists
after the pass (a previously rendered file is deleted, prior absence
tolerated), the remaining descriptors are still processed and the pass
completes; the descriptor's launcher name, however, remains in the
pass's target list. -/
theorem dispvm_skip_c5 (env : VMEnv) (oracle : ExitOracle) (force : Bool)
    (fs0 : Fs) (base : String) (content : Text) (r : PassResult)
    (hmem : (base, content) ∈ filterMenus env.avail
      (effective_whitelist env.menuItemsFeature env.whitelistFileLines))
    (hnodup : (env.avail.map Prod.fst).Nodup)
    (herr : renderDesktop content env.name.data env.vmdir
      (env.renderIcon true) true = .error ())
    (hr : onedirPass env oracle force true false fs0 = .ok r) :
    Fs.find r.fs (desktop_name env.name base true) = none ∧
    desktop_name env.name base true ∈ r.target := by
  have hmn : ((filterMenus env.avail (effective_whitelist env.menuItemsFeature
      env.whitelistFileLines)).map Prod.fst).Nodup :=
    hnodup.sublist ((filterMenus_sublist _ _).map Prod.fst)
  simp only [onedirPass, if_pos rfl, if_true] at hr
  cases hdir : renderDesktop env.dirTemplateDispvm env.name.data env.vmdir
      (env.renderIcon true) true with
  | error e =>
    rw [hdir] at hr
    cases hr
  | ok dirData =>
    rw [hdir] at hr
    simp only [Except.map] at hr
    injection hr with hr
    subst hr
    constructor
    · have h1 : Fs.find (passWrites env true dirData fs0).1
          (desktop_name env.name base true) = none := by
        show Fs.find (processMenus env.name env.vmdir (env.renderIcon true)
          true (filterMenus env.avail (effective_whitelist
            env.menuItemsFeature env.whitelistFileLines))
          (writeDesktopFile fs0 (directory_file_name env.name true)
            dirData).2).1 (desktop_name env.name base true) = none
        exact processMenus_find_err env.name env.vmdir (env.renderIcon true)
          true base content _ _ hmem hmn herr
      exact find_foldl_erase_none _ _ _ h1
    · show desktop_name env.name base true ∈
        (filterMenus env.avail (effective_whitelist env.menuItemsFeature
          env.whitelistFileLines)).map
          (fun p => desktop_name env.name p.1 true)
      exact List.mem_map_of_mem _ hmem

/-- Witness for C5: the pass over `demoEnvErr` as produced by
`onedirPass` itself. -/
theorem dispvm_skip_c5_witness :
    Fs.find (passOf (onedirPassDemoErr false)).fs
      (desktop_name "w" "a.desktop" true) = none ∧
    desktop_name "w" "a.desktop" true ∈
      (passOf (onedirPassDemoErr false)).target := by
  have h := dispvm_skip_c5 demoEnvErr demoOracle false [] "a.desktop"
    errDescriptor (passOf (onedirPassDemoErr false)) (by decide) (by decide)
    rfl rfl
  exact h

/-! ### Claim C8 -/

/-- **C8.** Cross-pass preservation: the normal-mode pass run with the
disposable companion pending (`keep_dispvm`) leaves every file whose
name carries a disposable-mode prefix (launcher `org.qubes-os.dispvm` or
directory-entry `qubes-dispvm-directory-` variant) untouched, excludes
it from the stale set and from every uninstall batch; symmetrically, the
disposable-mode pass preserves files carrying a normal-mode prefix
(`org.qubes-os.vm` or `qubes-vm-directory-`). -/
theorem cross_pass_preservation_c8 (env : VMEnv) (o1 o2 : ExitOracle)
    (force : Bool) (fs0 fs1 : Fs) (n m : String) (r1 r2 : PassResult)
    (hn : startswith n qubes_dispvm_desktop = true ∨
      startswith n "qubes-dispvm-directory-" = true)
    (hr1 : onedirPass env o1 force false true fs0 = .ok r1)
    (hm : startswith m qubes_vm_desktop = true ∨
      startswith m "qubes-vm-directory-" = true)
    (hr2 : onedirPass env o2 force true false fs1 = .ok r2) :
    (Fs.find r1.fs n = Fs.find fs0 n ∧ n ∉ r1.stale ∧
      ∀ b ∈ r1.uninstallCalls, n ∉ b) ∧
    (Fs.find r2.fs m = Fs.find fs1 m ∧ m ∉ r2.stale ∧
      ∀ b ∈ r2.uninstallCalls, m ∉ b) := by
  have hneN : ∀ w : String,
      (startswith w qubes_dispvm_desktop = false ∧
        startswith w "qubes-dispvm-directory-" = false) → n ≠ w := by
    rintro w ⟨hw1, hw2⟩
    rcases hn with hn | hn
    · exact ne_of_startswith n w _ hn hw1
    · exact ne_of_startswith n w _ hn hw2
  have hneM : ∀ w : String,
      (startswith w qubes_vm_desktop = false ∧
        startswith w "qubes-vm-directory-" = false) → m ≠ w := by
    rintro w ⟨hw1, hw2⟩
    rcases hm with hm | hm
    · exact ne_of_startswith m w _ hm hw1
    · exact ne_of_startswith m w _ hm hw2
  constructor
  · -- normal pass with keep_dispvm
    simp only [onedirPass, renderDesktop, Bool.false_eq_true, if_false,
      Except.map] at hr1
    injection hr1 with hr1
    subst hr1
    set dirData := substAll env.dirTemplateNormal env.name.data env.vmdir
      (env.renderIcon false) with hdd
    have hstale : n ∉ (passCore env o1 force false true dirData fs0).stale := by
      intro hmem
      have h2 := (List.mem_filter.mp hmem).2
      rw [Bool.and_eq_true, Bool.not_eq_true', Bool.not_eq_true'] at h2
      rcases hn with hn | hn
      · rw [h2.1] at hn; cases hn
      · rw [h2.2] at hn; cases hn
    have hws : Fs.find (passWrites env false dirData fs0).1 n =
        Fs.find fs0 n := by
      show Fs.find (writeDesktopFile
        (processMenus env.name env.vmdir (env.renderIcon false) false
          (filterMenus env.avail (effective_whitelist env.menuItemsFeature
            env.whitelistFileLines))
          (writeDesktopFile fs0 (directory_file_name env.name false)
            dirData).2).1
        (settings_name env.name)
        (substAll env.settingsTemplate env.name.data env.vmdir env.icon)).2
        n = Fs.find fs0 n
      rw [writeDesktopFile_find_ne _ _ _ _
        (hneN _ (settings_name_not_dispvm_prefixed env.name))]
      rw [processMenus_find_other env.name env.vmdir (env.renderIcon false)
        false n _ _ (fun p _ => Ne.symm
          (hneN _ (desktop_name_normal_not_dispvm_prefixed env.name p.1)))]
      exact writeDesktopFile_find_ne _ _ _ _
        (hneN _ (directory_name_normal_not_dispvm_prefixed env.name))
    have hstale2 : n ∉ passStale env false true
        (passWrites env false dirData fs0).1
        (passWrites env false dirData fs0).2.2.2 := hstale
    refine ⟨?_, hstale, ?_⟩
    · show Fs.find ((passStale env false true
        (passWrites env false dirData fs0).1
        (passWrites env false dirData fs0).2.2.2).foldl Fs.erase
        (passWrites env false dirData fs0).1) n = Fs.find fs0 n
      rw [find_foldl_erase_not_mem _ _ _ hstale2]
      exact hws
    · intro b hb hnb
      exact hstale (batches_subset _ b hb n hnb)
  · -- disposable pass
    simp only [onedirPass, if_pos rfl, if_true] at hr2
    cases hdir : renderDesktop env.dirTemplateDispvm env.name.data env.vmdir
        (env.renderIcon true) true with
    | error e =>
      rw [hdir] at hr2
      cases hr2
    | ok dirData =>
      rw [hdir] at hr2
      simp only [Except.map] at hr2
      injection hr2 with hr2
      subst hr2
      have hstale : m ∉
          (passCore env o2 force true false dirData fs1).stale := by
        intro hmem
        have h2 := (List.mem_filter.mp hmem).2
        rw [Bool.and_eq_true, Bool.not_eq_true', Bool.not_eq_true'] at h2
        rcases hm with hm | hm
        · rw [h2.1] at hm; cases hm
        · rw [h2.2] at hm; cases hm
      have hws : Fs.find (passWrites env true dirData fs1).1 m =
          Fs.find fs1 m := by
        show Fs.find (processMenus env.name env.vmdir (env.renderIcon true)
          true (filterMenus env.avail (effective_whitelist
            env.menuItemsFeature env.whitelistFileLines))
          (writeDesktopFile fs1 (directory_file_name env.name true)
            dirData).2).1 m = Fs.find fs1 m
        rw [processMenus_find_other env.name env.vmdir (env.renderIcon true)
          true m _ _ (fun p _ => Ne.symm
            (hneM _ (desktop_name_dispvm_not_vm_prefixed env.name p.1)))]
        exact writeDesktopFile_find_ne _ _ _ _
          (hneM _ (directory_name_dispvm_not_vm_prefixed env.name))
      have hstale2 : m ∉ passStale env true false
          (passWrites env true dirData fs1).1
          (passWrites env true dirData fs1).2.2.2 := hstale
      refine ⟨?_, hstale, ?_⟩
      · show Fs.find ((passStale env true false
          (passWrites env true dirData fs1).1
          (passWrites env true dirData fs1).2.2.2).foldl Fs.erase
          (passWrites env true dirData fs1).1) m = Fs.find fs1 m
        rw [find_foldl_erase_not_mem _ _ _ hstale2]
        exact hws
      · intro b hb hmb
        exact hstale (batches_subset _ b hb m hmb)

/-- Witness for C8: concrete cross-pass runs over `demoEnv`, protecting
a disposable launcher during the normal pass and a normal launcher
during the disposable pass. -/
theorem cross_pass_preservation_c8_witness :
    Fs.find (passOf (onedirPass demoEnv demoOracle false false true
      [("org.qubes-os.dispvm.w.x.desktop", txt "D")])).fs
      "org.qubes-os.dispvm.w.x.desktop" = some (txt "D") ∧
    Fs.find (passOf (onedirPass demoEnv demoOracle false true false
      [("org.qubes-os.vm.w.x.desktop", txt "N")])).fs
      "org.qubes-os.vm.w.x.desktop" = some (txt "N") := by
  have h := cross_pass_preservation_c8 demoEnv demoOracle demoOracle false
    [("org.qubes-os.dispvm.w.x.desktop", txt "D")]
    [("org.qubes-os.vm.w.x.desktop", txt "N")]
    "org.qubes-os.dispvm.w.x.desktop" "org.qubes-os.vm.w.x.desktop"
    (passOf (onedirPass demoEnv demoOracle false false true
      [("org.qubes-os.dispvm.w.x.desktop", txt "D")]))
    (passOf (onedirPass demoEnv demoOracle false true false
      [("org.qubes-os.vm.w.x.desktop", txt "N")]))
    (Or.inl (by decide)) rfl (Or.inl (by decide)) rfl
  refine ⟨?_, ?_⟩
  · rw [h.1.1]; decide
  · rw [h.2.1]; decide

/-! ### Claim C1 -/

/-- **C1 (the code violates the claim).** Without a disposable companion
pass, a second `appmenus_create` run is a true no-op (no file change, no
install, no uninstall). But when the disposable companion pass is
pending, the disposable pass's stale filter protects only the
`org.qubes-os.vm` and `qubes-vm-directory-` families and therefore
uninstalls and deletes the settings launcher
(`org.qubes-os.qubes-vm-settings.<vm>.desktop`) that the normal pass
just created; consequently the second run rewrites and re-installs the
settings launcher and uninstalls and deletes it again — every run
modifies files and issues one install and one uninstall invocation. -/
theorem create_not_idempotent_c1 :
    ((runPass demoRunND2 0).installCall = none ∧
      (runPass demoRunND2 0).uninstallCalls = [] ∧
      (runPass demoRunND2 0).changed = [] ∧
      (runPass demoRunND2 0).dirChanged = false ∧
      runFs demoRunND2 = runFs demoRunND1) ∧
    ((runPass demoRun2 0).changed = [settings_name "w"] ∧
      (runPass demoRun2 0).installCall =
        some [directory_file_name "w" false, settings_name "w"] ∧
      (runPass demoRun2 1).uninstallCalls = [[settings_name "w"]] ∧
      Fs.find (runFs demoRun1) (settings_name "w") = none ∧
      runFs demoRun2 = runFs demoRun1) := by decide

/-! ### Claim C9 -/

theorem appicons_create_eq (menuItems : Option Text)
    (wfl : Option (List Text)) (srcdirs : List SrcDir)
    (dst : List (String × Nat)) (force : Bool)
    (hsrc : srcdirs.isEmpty = false) :
    appicons_create menuItems wfl srcdirs dst force false false =
      ⟨(expected_icons (appicons_whitelist menuItems wfl) srcdirs).filterMap
        (fun i => (icon_regen srcdirs dst force i).map
          (fun pm => (pm.1, i))),
       ((dst.map Prod.fst) ++
         (((expected_icons (appicons_whitelist menuItems wfl)
             srcdirs).filterMap
           (fun i => (icon_regen srcdirs dst force i).map
             (fun pm => (pm.1, i)))).map Prod.snd).filter
           (fun i => !(dst.map Prod.fst).contains i)).filter
         (fun i => (expected_icons (appicons_whitelist menuItems wfl)
           srcdirs).contains i)⟩ := by
  unfold appicons_create
  rw [hsrc]
  rfl

theorem icon_regen_eq_some (srcdirs : List SrcDir)
    (dst : List (String × Nat)) (force : Bool) (i p : String) (m : Nat) :
    icon_regen srcdirs dst force i = some (p, m) ↔
      (template_for_file srcdirs i = some (p, m) ∧
        (findEntry dst i = none ∨ force = true ∨
          ∃ dm, findEntry dst i = some dm ∧ dm < m)) := by
  cases ht : template_for_file srcdirs i with
  | none => simp [icon_regen, ht]
  | some pm =>
    obtain ⟨p0, m0⟩ := pm
    cases hd : findEntry dst i with
    | none =>
      simp only [icon_regen, ht, hd, Option.some.injEq, Prod.mk.injEq]
      constructor
      · rintro ⟨rfl, rfl⟩
        exact ⟨⟨rfl, rfl⟩, Or.inl (by trivial)⟩
      · rintro ⟨⟨rfl, rfl⟩, _⟩
        exact ⟨rfl, rfl⟩
    | some dm =>
      simp only [icon_regen, ht, hd]
      by_cases hor : (force || decide (m0 > dm)) = true
      · rw [if_pos hor]
        constructor
        · rintro h
          injection h with h
          injection h with h1 h2
          subst h1
          subst h2
          have hor2 : force = true ∨ dm < m0 := by simpa using hor
          rcases hor2 with hf | hgt
          · exact ⟨rfl, Or.inr (Or.inl hf)⟩
          · exact ⟨rfl, Or.inr (Or.inr ⟨dm, rfl, hgt⟩)⟩
        · rintro ⟨heq, _⟩
          injection heq with heq
          injection heq with h1 h2
          subst h1
          subst h2
          rfl
      · rw [if_neg hor]
        constructor
        · rintro h
          cases h
        · rintro ⟨heq, hcase⟩
          injection heq with heq
          injection heq with h1 h2
          subst h1
          subst h2
          rcases hcase with hc | hc | ⟨dm2, hdm2, hlt2⟩
          · cases hc
          · subst hc
            simp at hor
          · injection hdm2 with hdm2
            subst hdm2
            exact absurd (by simp [hlt2]) hor

/-- **C9.** Icon synchronization: for each expected icon name, the
source is the first directory in resolution order containing that
filename; the tinting call is issued exactly for expected icons with a
source when the destination is absent, `force` is set, or the source
mtime strictly exceeds the destination's (equal mtimes do not
regenerate); and after processing, every file remaining in the
destination directory is in the expected set, while destination files in
the expected set survive. -/
theorem appicons_c9 (menuItems : Option Text) (wfl : Option (List Text))
    (srcdirs : List SrcDir) (dst : List (String × Nat)) (force : Bool)
    (p i : String) (d : SrcDir) (rest : List SrcDir) (mnat : Nat)
    (hsrc : srcdirs.isEmpty = false) :
    ((p, i) ∈ (appicons_create menuItems wfl srcdirs dst force
        false false).tintCalls ↔
      (i ∈ expected_icons (appicons_whitelist menuItems wfl) srcdirs ∧
        ∃ m, template_for_file srcdirs i = some (p, m) ∧
          (findEntry dst i = none ∨ force = true ∨
            ∃ dm, findEntry dst i = some dm ∧ dm < m))) ∧
    (findEntry d.files i = some mnat →
      template_for_file (d :: rest) i = some (d.path, mnat)) ∧
    (findEntry d.files i = none →
      template_for_file (d :: rest) i = template_for_file rest i) ∧
    (∀ m0, template_for_file srcdirs i = some (p, m0) →
      findEntry dst i = some m0 → icon_regen srcdirs dst false i = none) ∧
    (∀ x ∈ (appicons_create menuItems wfl srcdirs dst force
        false false).finalDst,
      x ∈ expected_icons (appicons_whitelist menuItems wfl) srcdirs) ∧
    (∀ x ∈ dst.map Prod.fst,
      x ∈ expected_icons (appicons_whitelist menuItems wfl) srcdirs →
      x ∈ (appicons_create menuItems wfl srcdirs dst force
        false false).finalDst) := by
  rw [appicons_create_eq menuItems wfl srcdirs dst force hsrc]
  refine ⟨?_, ?_, ?_, ?_, ?_, ?_⟩
  · simp only [List.mem_filterMap, Option.map_eq_some']
    constructor
    · rintro ⟨a, ha, ⟨pm, hpm, heq⟩⟩
      injection heq with heq1 heq2
      subst heq2
      obtain ⟨p0, m0⟩ := pm
      simp only at heq1
      subst heq1
      obtain ⟨hp, hm⟩ :=
        (icon_regen_eq_some srcdirs dst force a p0 m0).mp hpm
      exact ⟨ha, m0, hp, hm⟩
    · rintro ⟨hi, m, hp, hm⟩
      exact ⟨i, hi, ⟨(p, m),
        (icon_regen_eq_some srcdirs dst force i p m).mpr ⟨hp, hm⟩, rfl⟩⟩
  · intro h
    show (match findEntry d.files i with
      | some m => some (d.path, m)
      | none => template_for_file rest i) = some (d.path, mnat)
    rw [h]
  · intro h
    show (match findEntry d.files i with
      | some m => some (d.path, m)
      | none => template_for_file rest i) = template_for_file rest i
    rw [h]
  · intro m0 hp hd
    unfold icon_regen
    rw [hp, hd]
    simp
  · intro x hx
    have := List.mem_filter.mp hx
    simpa [List.elem_iff] using this.2
  · intro x hx hexp
    refine List.mem_filter.mpr ⟨List.mem_append_left _ hx, ?_⟩
    simpa [List.elem_iff] using hexp

/-- Witness for C9 at a concrete icon world: `a.png` is tinted from the
nearest source because the destination is older; `old.png` is deleted
because it is not expected; equal-mtime `b.png` is not regenerated. -/
theorem appicons_c9_witness :
    ((("s1", "a.png") ∈ (appicons_create none none
        [⟨"s1", [("a.png", 5), ("b.png", 3)]⟩]
        [("a.png", 4), ("b.png", 3), ("old.png", 9)] false
        false false).tintCalls) ↔
      ("a.png" ∈ expected_icons (appicons_whitelist none none)
          [⟨"s1", [("a.png", 5), ("b.png", 3)]⟩] ∧
        ∃ m, template_for_file [⟨"s1", [("a.png", 5), ("b.png", 3)]⟩]
            "a.png" = some ("s1", m) ∧
          (findEntry [("a.png", 4), ("b.png", 3), ("old.png", 9)] "a.png" =
              none ∨ false = true ∨
            ∃ dm, findEntry [("a.png", 4), ("b.png", 3), ("old.png", 9)]
                "a.png" = some dm ∧ dm < m))) ∧
    icon_regen [⟨"s1", [("a.png", 5), ("b.png", 3)]⟩]
      [("a.png", 4), ("b.png", 3), ("old.png", 9)] false "b.png" = none ∧
    (appicons_create none none [⟨"s1", [("a.png", 5), ("b.png", 3)]⟩]
      [("a.png", 4), ("b.png", 3), ("old.png", 9)] false false
      false).finalDst = ["a.png", "b.png"] := by
  have h := appicons_c9 none none [⟨"s1", [("a.png", 5), ("b.png", 3)]⟩]
    [("a.png", 4), ("b.png", 3), ("old.png", 9)] false "s1" "b.png"
    ⟨"s1", [("a.png", 5), ("b.png", 3)]⟩ [] 3 (by decide)
  have h2 := appicons_c9 none none [⟨"s1", [("a.png", 5), ("b.png", 3)]⟩]
    [("a.png", 4), ("b.png", 3), ("old.png", 9)] false "s1" "a.png"
    ⟨"s1", [("a.png", 5), ("b.png", 3)]⟩ [] 5 (by decide)
  refine ⟨h2.1, h.2.2.2.1 3 (by decide) (by decide), by decide⟩

end Qubesappmenus
